import Mathlib

/-!
Verification of the log-event processing core of `lib_log_rich`.

Shallow embedding of the domain model (`domain/levels.py`, `domain/events.py`,
`domain/context.py`, `domain/ring_buffer.py`) and the adapters
(`adapters/scrubber.py`, `adapters/rate_limiter.py`, `adapters/queue.py`,
`adapters/dump.py`) together with the processing pipeline
(`application/use_cases/process_event.py`).

Modelling conventions:
* Python dictionaries with string keys become association lists
  (`List (String × _)`); insertion order is preserved as in CPython.
* Timezone-aware datetimes are modelled by the UTC instant they denote, as an
  integer number of time units (`Int`); `isoformat`/`fromisoformat` round-trip
  through the same instant, so the serialised timestamp is modelled by that
  instant as well.
* A compiled regular expression is modelled by its `search` behaviour, a
  `String → Bool` predicate.
* Fallible constructors (`__post_init__` validation, `json` parsing,
  filesystem writes) return `Except String _`; `.error` models a raised
  exception.
-/

namespace LibLogRich

/-! ## Levels (`domain/levels.py`) -/

inductive LogLevel where
  | debug
  | info
  | warning
  | error
  | critical
deriving DecidableEq, Repr

def LogLevel.value : LogLevel → Nat
  | .debug => 10
  | .info => 20
  | .warning => 30
  | .error => 40
  | .critical => 50

def LogLevel.name : LogLevel → String
  | .debug => "DEBUG"
  | .info => "INFO"
  | .warning => "WARNING"
  | .error => "ERROR"
  | .critical => "CRITICAL"

def LogLevel.severity : LogLevel → String
  | .debug => "debug"
  | .info => "info"
  | .warning => "warning"
  | .error => "error"
  | .critical => "critical"

/-- Python `str.strip()`: drop leading and trailing whitespace.  Implemented
over the character list so the kernel can evaluate it. -/
def pyStrip (s : String) : String :=
  String.mk (((s.data.dropWhile Char.isWhitespace).reverse.dropWhile Char.isWhitespace).reverse)

/-- Python `str.upper()` on ASCII level names. -/
def pyUpper (s : String) : String :=
  String.mk (s.data.map Char.toUpper)

def LogLevel.fromName (s : String) : Option LogLevel :=
  match pyUpper (pyStrip s) with
  | "DEBUG" => some .debug
  | "INFO" => some .info
  | "WARNING" => some .warning
  | "ERROR" => some .error
  | "CRITICAL" => some .critical
  | _ => Option.none

/-! ## Python payload values

`extra` payloads hold arbitrary Python data.  `bytesVal` carries the UTF-8
lossy decoding of a bytes payload, which is the only view the scrubber uses.
-/

mutual

inductive PyValue where
  | str (s : String)
  | bytesVal (text : String)
  | intVal (n : Int)
  | boolVal (b : Bool)
  | noneVal
  | map (entries : PyFields)
  | listVal (items : PyItems)
  | tupleVal (items : PyItems)
  | setVal (items : PyItems)
deriving DecidableEq

/-- Entries of a nested Python mapping, in insertion order. -/
inductive PyFields where
  | nil
  | cons (key : String) (value : PyValue) (rest : PyFields)
deriving DecidableEq

/-- Items of a nested Python sequence or set, in iteration order. -/
inductive PyItems where
  | nil
  | cons (value : PyValue) (rest : PyItems)
deriving DecidableEq

end

/-! ## Context (`domain/context.py`) -/

structure LogContextM where
  service : String
  environment : String
  jobId : String
  requestId : Option String := Option.none
  userId : Option String := Option.none
  userName : Option String := Option.none
  hostname : Option String := Option.none
  processId : Option Int := Option.none
  processIdChain : List Int := []
  traceId : Option String := Option.none
  spanId : Option String := Option.none
  extra : List (String × PyValue) := []
deriving DecidableEq

/-- A required field fails `_validate_not_blank` when it strips to empty. -/
def blank (s : String) : Bool := pyStrip s = ""

/-- Models `LogContext.__init__` plus `__post_init__`: required fields are
validated not blank; the chain and extras normalisations are the identity on
the model (`tuple(int(pid) ...)` and `dict(...)`). -/
def mkLogContext (service environment jobId : String)
    (requestId userId userName hostname : Option String)
    (processId : Option Int) (processIdChain : List Int)
    (traceId spanId : Option String)
    (extra : List (String × PyValue)) : Except String LogContextM :=
  if blank service then .error "service must not be empty"
  else if blank environment then .error "environment must not be empty"
  else if blank jobId then .error "job_id must not be empty"
  else .ok { service := service, environment := environment, jobId := jobId,
             requestId := requestId, userId := userId, userName := userName,
             hostname := hostname, processId := processId,
             processIdChain := processIdChain, traceId := traceId,
             spanId := spanId, extra := extra }

/-! ## Log events (`domain/events.py`) -/

structure LogEventM where
  eventId : String
  timestamp : Int
  loggerName : String
  level : LogLevel
  message : String
  context : LogContextM
  extra : List (String × PyValue) := []
  excInfo : Option String := Option.none
deriving DecidableEq

/-- Models `LogEvent.__post_init__`: the timestamp is already an absolute UTC
instant in the model (`_ensure_aware` normalisation), the message must not
strip to empty, the event id must be non-empty, and the extras copy is the
identity. -/
def mkLogEvent (eventId : String) (timestamp : Int) (loggerName : String)
    (level : LogLevel) (message : String) (context : LogContextM)
    (extra : List (String × PyValue)) (excInfo : Option String) :
    Except String LogEventM :=
  if blank message then .error "message must not be empty"
  else if eventId = "" then .error "event_id must not be empty"
  else .ok { eventId := eventId, timestamp := timestamp,
             loggerName := loggerName, level := level, message := message,
             context := context, extra := extra, excInfo := excInfo }

/-! ## Scrubber (`adapters/scrubber.py`)

`RegexScrubber` is configured with a mapping of field name to compiled
pattern; a compiled pattern is modelled by its `search` predicate.
-/

mutual

/-- Models `RegexScrubber._scrub_value`: the branches follow the source order
(str, bytes, Mapping, AbstractSet, Sequence, passthrough).  A matching bytes
payload is replaced by the replacement string, as in the source. -/
def scrubValue (search : String → Bool) (repl : String) : PyValue → PyValue
  | .str s => if search s then .str repl else .str s
  | .bytesVal text => if search text then .str repl else .bytesVal text
  | .map entries => .map (scrubEntries search repl entries)
  | .setVal items => .setVal (scrubItems search repl items)
  | .listVal items => .listVal (scrubItems search repl items)
  | .tupleVal items => .tupleVal (scrubItems search repl items)
  | v => v

/-- Recursive scrub of the values of a nested mapping. -/
def scrubEntries (search : String → Bool) (repl : String) : PyFields → PyFields
  | .nil => .nil
  | .cons k v rest => .cons k (scrubValue search repl v) (scrubEntries search repl rest)

/-- Recursive scrub of the items of a nested sequence or set. -/
def scrubItems (search : String → Bool) (repl : String) : PyItems → PyItems
  | .nil => .nil
  | .cons v rest => .cons (scrubValue search repl v) (scrubItems search repl rest)

end

/-- Is a key present in the extras dictionary (`key in extra`)? -/
def hasKey (k : String) (es : List (String × PyValue)) : Bool :=
  es.any (fun kv => kv.1 = k)

/-- In-place update of one key of the extras dictionary
(`extra[key] = ...`); keys of a Python dict are unique. -/
def updateKey (k : String) (f : PyValue → PyValue) :
    List (String × PyValue) → List (String × PyValue) :=
  fun es => es.map fun kv => if kv.1 = k then (kv.1, f kv.2) else kv

/-- Models the loop of `RegexScrubber.scrub`: for every configured pattern,
if its field name is a top-level key of the extras copy, scrub that value. -/
def scrubExtra (patterns : List (String × (String → Bool))) (repl : String)
    (extra : List (String × PyValue)) : List (String × PyValue) :=
  patterns.foldl
    (fun acc p => if hasKey p.1 acc then updateKey p.1 (scrubValue p.2 repl) acc else acc)
    extra

/-- Models `RegexScrubber.scrub`: returns `event.replace` with the scrubbed
extras copy; every other field of the event is untouched. -/
def RegexScrubber.scrub (patterns : List (String × (String → Bool)))
    (repl : String) (e : LogEventM) : LogEventM :=
  { e with extra := scrubExtra patterns repl e.extra }

/-- First pattern configured for a field name, as in the patterns dict. -/
def patternFor (k : String) :
    List (String × (String → Bool)) → Option (String → Bool)
  | [] => Option.none
  | p :: rest => if p.1 = k then some p.2 else patternFor k rest

/-- Lookup of a key in an association-list dictionary (first occurrence). -/
def lookupKey (k : String) : List (String × PyValue) → Option PyValue
  | [] => Option.none
  | kv :: rest => if kv.1 = k then some kv.2 else lookupKey k rest

/-! ## Ring buffer (`domain/ring_buffer.py`)

The deque with `maxlen` drops from the left when an append exceeds the
capacity.
-/

structure RingBufferM where
  maxEvents : Nat
  buffer : List LogEventM
deriving DecidableEq

/-- Models `RingBuffer.__init__` without a checkpoint path:
`max_events <= 0` raises `ValueError`. -/
def mkRingBuffer (maxEvents : Int) : Except String RingBufferM :=
  if maxEvents ≤ 0 then .error "max_events must be positive"
  else .ok { maxEvents := maxEvents.toNat, buffer := [] }

/-- Models `RingBuffer.append`: the bounded deque keeps at most `maxEvents`
entries, dropping the oldest first. -/
def RingBufferM.append (rb : RingBufferM) (e : LogEventM) : RingBufferM :=
  let b := rb.buffer ++ [e]
  { rb with buffer := if rb.maxEvents < b.length then b.drop (b.length - rb.maxEvents) else b }

/-- Models `RingBuffer.extend` / a sequence of `append` calls. -/
def RingBufferM.appendList (rb : RingBufferM) : List LogEventM → RingBufferM
  | [] => rb
  | e :: rest => (rb.append e).appendList rest

/-- Models `RingBuffer.snapshot` (a copy of the buffer, oldest to newest). -/
def RingBufferM.snapshot (rb : RingBufferM) : List LogEventM := rb.buffer

/-- Models `RingBuffer._load_checkpoint`: blank lines are skipped; a line the
parser rejects raises (only `FileNotFoundError` is caught in the source, so a
`json.JSONDecodeError` propagates out of the constructor).  `parse` models
`json.loads` followed by `LogEvent.from_dict`; `Option.none` models the parse
raising. -/
def RingBufferM.loadCheckpoint (parse : String → Option LogEventM)
    (rb : RingBufferM) : List String → Except String RingBufferM
  | [] => .ok rb
  | line :: rest =>
    if pyStrip line = "" then rb.loadCheckpoint parse rest
    else
      match parse line with
      | some e => (rb.append e).loadCheckpoint parse rest
      | Option.none => .error "json.JSONDecodeError"

/-- Models `RingBuffer.__init__` when a checkpoint file with the given lines
exists at the configured path. -/
def mkRingBufferFromCheckpoint (maxEvents : Int)
    (parse : String → Option LogEventM) (lines : List String) :
    Except String RingBufferM := do
  let rb ← mkRingBuffer maxEvents
  rb.loadCheckpoint parse lines

/-! ## Rate limiter (`adapters/rate_limiter.py`)

Buckets are keyed by `(logger_name, level.severity)`; each bucket is the
deque of accepted timestamps, oldest first.  Timestamps are modelled as `Int`
time units (the float epoch seconds of the source).
-/

/-- Models the purge loop `while bucket and bucket[0] <= cutoff: popleft()`. -/
def purgeBucket (cutoff : Int) : List Int → List Int
  | [] => []
  | t :: rest => if t ≤ cutoff then purgeBucket cutoff rest else t :: rest

/-- Models the body of `SlidingWindowRateLimiter.allow` on one bucket:
purge expired entries, deny when the bucket is full, otherwise record the
event timestamp and allow. -/
def bucketAllow (maxEvents : Nat) (interval : Int) (bucket : List Int)
    (now : Int) : Bool × List Int :=
  let purged := purgeBucket (now - interval) bucket
  if maxEvents ≤ purged.length then (false, purged)
  else (true, purged ++ [now])

structure SlidingWindowRateLimiterM where
  maxEvents : Nat
  interval : Int
  buckets : List ((String × String) × List Int)
deriving DecidableEq

/-- Bucket of a key in the `defaultdict(deque)` (missing key = empty deque). -/
def getBucket (buckets : List ((String × String) × List Int))
    (key : String × String) : List Int :=
  match buckets.find? (fun kb => kb.1 = key) with
  | some kb => kb.2
  | Option.none => []

/-- Store the updated deque back for a key. -/
def setBucket (buckets : List ((String × String) × List Int))
    (key : String × String) (b : List Int) :
    List ((String × String) × List Int) :=
  if buckets.any (fun kb => kb.1 = key) then
    buckets.map (fun kb => if kb.1 = key then (kb.1, b) else kb)
  else buckets ++ [(key, b)]

/-- Models `SlidingWindowRateLimiter.allow`. -/
def SlidingWindowRateLimiterM.allow (lim : SlidingWindowRateLimiterM)
    (ev : LogEventM) : Bool × SlidingWindowRateLimiterM :=
  let key := (ev.loggerName, ev.level.severity)
  let (ok, b) := bucketAllow lim.maxEvents lim.interval (getBucket lim.buckets key) ev.timestamp
  (ok, { lim with buckets := setBucket lim.buckets key b })

/-- Run the limiter over a list of events, collecting the decisions. -/
def SlidingWindowRateLimiterM.run (lim : SlidingWindowRateLimiterM) :
    List LogEventM → List Bool × SlidingWindowRateLimiterM
  | [] => ([], lim)
  | e :: rest =>
    let (ok, lim2) := lim.allow e
    let (oks, lim3) := lim2.run rest
    (ok :: oks, lim3)

/-- One step of a bucket simulation that also tracks the accepted history:
the state is `(bucket, accepted timestamps so far)`. -/
def simStep (maxEvents : Nat) (interval : Int) (st : List Int × List Int)
    (now : Int) : List Int × List Int :=
  let (ok, b) := bucketAllow maxEvents interval st.1 now
  (b, if ok then st.2 ++ [now] else st.2)

/-- Bucket simulation from the empty bucket over a list of timestamps. -/
def simRun (maxEvents : Nat) (interval : Int) (tss : List Int) :
    List Int × List Int :=
  tss.foldl (simStep maxEvents interval) ([], [])

/-- Number of accepted timestamps inside the half-open window
`(now − interval, now]`. -/
def windowCount (accepted : List Int) (interval now : Int) : Nat :=
  (accepted.filter (fun t => decide (now - interval < t) && decide (t ≤ now))).length

/-! ## Queue adapter (`adapters/queue.py`)

The producer-side state of `QueueAdapter`: the queued items, the capacity,
the drop policy, the put timeout, and the flags `put` and `stop` consult.
The model of `put` describes one call during which the worker consumes
nothing (in particular after `stop`, when no worker thread runs, which is the
scenario the claims exercise). -/

inductive DropPolicy where
  | block
  | drop
deriving DecidableEq

structure QueueAdapterM where
  items : List LogEventM
  maxsize : Nat
  dropPolicy : DropPolicy
  putTimeoutSet : Bool
  threadRunning : Bool
  stopEventSet : Bool
  dropPending : Bool
  workerFailed : Bool
deriving DecidableEq

/-- Outcome of one `put` call: `accepted` returns true after enqueueing,
`rejected` returns false after `_handle_drop`, `blocked` models the
indefinite wait of a block-policy put with `timeout=None` against a full
queue that nothing consumes. -/
inductive PutOutcomeM where
  | accepted (state : QueueAdapterM)
  | rejected (state : QueueAdapterM)
  | blocked
deriving DecidableEq

/-- Models `QueueAdapter.put` for a call during which the worker consumes
nothing: the effective policy downgrades block to drop when `worker_failed`
is latched; under the drop policy (or an expired block timeout) a full queue
rejects the event via `_handle_drop`; otherwise the event is enqueued and the
call returns true.  No branch consults the stopped state. -/
def QueueAdapterM.put (q : QueueAdapterM) (e : LogEventM) : PutOutcomeM :=
  let effectivePolicy :=
    if q.dropPolicy = DropPolicy.block ∧ q.workerFailed then DropPolicy.drop
    else q.dropPolicy
  match effectivePolicy with
  | DropPolicy.drop =>
    if q.maxsize ≤ q.items.length then .rejected q
    else .accepted { q with items := q.items ++ [e] }
  | DropPolicy.block =>
    if q.putTimeoutSet then
      if q.maxsize ≤ q.items.length then .rejected q
      else .accepted { q with items := q.items ++ [e] }
    else
      if q.maxsize ≤ q.items.length then .blocked
      else .accepted { q with items := q.items ++ [e] }

/-- Models the state `QueueAdapter.stop(drain=True)` leaves behind on its
clean path (the worker drains the queue, the drain event fires before the
deadline, and the thread joins): pending items have been processed, `_thread`
is cleared, `_stop_event` is cleared, `_drop_pending` is false and
`_clear_worker_failure` has run. -/
def QueueAdapterM.stopCleanDrain (q : QueueAdapterM) : QueueAdapterM :=
  { q with items := [], threadRunning := false, stopEventSet := false,
           dropPending := false, workerFailed := false }

/-- Models a freshly constructed and started adapter with the constructor
defaults (`maxsize=2048`, `drop_policy="block"`, `timeout=1.0`). -/
def startedQueueAdapter : QueueAdapterM :=
  { items := [], maxsize := 2048, dropPolicy := DropPolicy.block,
    putTimeoutSet := true, threadRunning := true, stopEventSet := false,
    dropPending := false, workerFailed := false }

/-! ## Severity monitor and diagnostics

`SeverityMonitor` and the diagnostic emitter are referenced by
`process_event.py` but their sources are not part of the provided tree. -/

/-- Bump a counter in a string-keyed counter map. -/
def bumpCounter (key : String) : List (String × Nat) → List (String × Nat)
  | [] => [(key, 1)]
  | kv :: rest => if kv.1 = key then (kv.1, kv.2 + 1) :: rest else kv :: bumpCounter key rest

/-- Read a counter (missing key = 0). -/
def counterOf (key : String) : List (String × Nat) → Nat
  | [] => 0
  | kv :: rest => if kv.1 = key then kv.2 else counterOf key rest

/-- Modelled from the spec: `SeverityMonitor` (§4.7) is absent from the
provided sources; it keeps thread-safe counters of emitted severities
(`record(level)`) and of drops by labelled reason
(`record_drop(level, reason)`), exposed as a snapshot of maps. -/
structure SeverityMonitorM where
  byLevel : List (String × Nat)
  drops : List (String × Nat)
deriving DecidableEq

/-- Modelled from the spec: `record(level)` increments the counter of the
severity. -/
def SeverityMonitorM.record (m : SeverityMonitorM) (lvl : LogLevel) : SeverityMonitorM :=
  { m with byLevel := bumpCounter lvl.severity m.byLevel }

/-- Modelled from the spec: `record_drop(level, reason)` increments the drop
counter of the reason. -/
def SeverityMonitorM.recordDrop (m : SeverityMonitorM) (_lvl : LogLevel)
    (reason : String) : SeverityMonitorM :=
  { m with drops := bumpCounter reason m.drops }

/-! ## Processing pipeline (`application/use_cases/process_event.py`) -/

structure ProcessResultM where
  ok : Bool
  reason : Option String := Option.none
  eventId : Option String := Option.none
  queued : Option Bool := Option.none
deriving DecidableEq

/-- The mutable state the pipeline touches during one call. -/
structure PipelineStateM where
  ring : RingBufferM
  monitor : SeverityMonitorM
  diagnostics : List (String × List (String × String))
deriving DecidableEq

/-- The dependency wiring frozen by `create_process_log_event`
(`_PipelineToolkit`): the scrubber, the rate limiter decision for this call,
the queue dispatcher (`None` when no queue is configured) and the inline
fan-out finaliser. -/
structure PipelineToolkitM where
  scrub : LogEventM → LogEventM
  allow : LogEventM → Bool
  queueDispatch : LogEventM → Option ProcessResultM
  finalizeFanOut : LogEventM → ProcessResultM

/-- Models `_reason_from`. -/
def reasonFrom (r : ProcessResultM) (default : String) : String :=
  r.reason.getD default

/-- Models `_reject_due_to_rate_limit`: record the drop, emit the
`rate_limited` diagnostic, and return ok=false with reason rate_limited.
The diagnostic emitter is modelled from the spec (the builder in
`_pipeline.py` is absent from the provided sources) as appending the
`(name, payload)` pair to the diagnostics trace. -/
def rejectDueToRateLimit (st : PipelineStateM) (ev : LogEventM) :
    ProcessResultM × PipelineStateM :=
  ({ ok := false, reason := some "rate_limited" },
   { st with
       monitor := st.monitor.recordDrop ev.level "rate_limited",
       diagnostics := st.diagnostics ++
         [("rate_limited",
           [("event_id", ev.eventId), ("logger", ev.loggerName), ("level", ev.level.name)])] })

/-- Models `_remember_event`. -/
def rememberEvent (st : PipelineStateM) (ev : LogEventM) : PipelineStateM :=
  { st with ring := st.ring.append ev, monitor := st.monitor.record ev.level }

/-- Models `_ProcessPipeline.__call__` from the point where the event has
been crafted (`_craft_event` allocates the id, reads the clock, refreshes the
identity and sanitises; the crafted event is the `ev` argument here): scrub,
rate check, retain, queue dispatch or inline fan-out. -/
def processCall (tk : PipelineToolkitM) (st : PipelineStateM) (ev0 : LogEventM) :
    ProcessResultM × PipelineStateM :=
  let ev := tk.scrub ev0
  if tk.allow ev = false then rejectDueToRateLimit st ev
  else
    let st1 := rememberEvent st ev
    match tk.queueDispatch ev with
    | some answer =>
      (answer,
       if answer.ok then st1
       else { st1 with monitor := st1.monitor.recordDrop ev.level (reasonFrom answer "queue_failure") })
    | Option.none =>
      let outcome := tk.finalizeFanOut ev
      (outcome,
       if outcome.ok then st1
       else { st1 with monitor := st1.monitor.recordDrop ev.level (reasonFrom outcome "adapter_error") })

/-! ## Context serialisation (`domain/context.py`) -/

/-- The mapping `LogContext.to_dict(include_none=False)` produces: an
`Option.none` field models a key dropped by the
`value not in (None, {}, [])` filter. -/
structure ContextDictM where
  service : String
  environment : String
  jobId : String
  requestId : Option String
  userId : Option String
  userName : Option String
  hostname : Option String
  processId : Option Int
  processIdChain : Option (List Int)
  traceId : Option String
  spanId : Option String
  extra : Option (List (String × PyValue))
deriving DecidableEq

/-- Models `LogContext.to_dict()` (the default `include_none=False`): the
required strings survive the filter; an optional field is dropped exactly
when it is `None`; the chain entry is the list when non-empty and dropped
otherwise; the extras entry is dropped when the mapping is empty. -/
def LogContextM.toDict (c : LogContextM) : ContextDictM :=
  { service := c.service, environment := c.environment, jobId := c.jobId,
    requestId := c.requestId, userId := c.userId, userName := c.userName,
    hostname := c.hostname, processId := c.processId,
    processIdChain := if c.processIdChain = [] then Option.none else some c.processIdChain,
    traceId := c.traceId, spanId := c.spanId,
    extra := if c.extra = [] then Option.none else some c.extra }

/-- Models `LogContext(**payload["context"])` as `LogEvent.from_dict` calls
it: a missing key falls back to the dataclass default. -/
def contextFromDict (d : ContextDictM) : Except String LogContextM :=
  mkLogContext d.service d.environment d.jobId d.requestId d.userId d.userName
    d.hostname d.processId (d.processIdChain.getD []) d.traceId d.spanId
    (d.extra.getD [])

/-! ## Event serialisation (`domain/events.py`) -/

/-- The mapping `LogEvent.to_dict` produces.  The timestamp field models the
ISO-8601 string through the UTC instant it denotes; `excInfo = Option.none`
models the `exc_info` key being absent. -/
structure EventDictM where
  eventId : String
  timestamp : Int
  loggerName : String
  level : String
  message : String
  context : ContextDictM
  extra : List (String × PyValue)
  excInfo : Option String
deriving DecidableEq

/-- Models `LogEvent.to_dict`. -/
def LogEventM.toDict (e : LogEventM) : EventDictM :=
  { eventId := e.eventId, timestamp := e.timestamp,
    loggerName := e.loggerName, level := e.level.severity,
    message := e.message, context := e.context.toDict, extra := e.extra,
    excInfo := e.excInfo }

/-- Models `LogEvent.from_dict`: rebuild the context, parse the level name,
and run the `LogEvent` constructor validation. -/
def LogEventM.fromDict (d : EventDictM) : Except String LogEventM := do
  let ctx ← contextFromDict d.context
  let lvl ← match LogLevel.fromName d.level with
    | some l => Except.ok l
    | Option.none => Except.error "Unknown log level"
  mkLogEvent d.eventId d.timestamp d.loggerName lvl d.message ctx d.extra d.excInfo

/-! ## Context binder (`domain/context.py`, `ContextBinder.bind`) -/

/-- The keyword arguments of a `bind(**fields)` call; `Option.none` models an
argument that is absent or passed as `None`. -/
structure BindFieldsM where
  service : Option String := Option.none
  environment : Option String := Option.none
  jobId : Option String := Option.none
  requestId : Option String := Option.none
  userId : Option String := Option.none
  userName : Option String := Option.none
  hostname : Option String := Option.none
  processId : Option Int := Option.none
  processIdChain : Option (List Int) := Option.none
  traceId : Option String := Option.none
  spanId : Option String := Option.none
  extra : Option (List (String × PyValue)) := Option.none

/-- Models `LogContext.merge`: serialise the base frame with
`include_none=True`, overlay the overrides that are not `None`, and rerun the
constructor. -/
def LogContextM.merge (c : LogContextM) (o : BindFieldsM) : Except String LogContextM :=
  mkLogContext (o.service.getD c.service) (o.environment.getD c.environment)
    (o.jobId.getD c.jobId)
    (o.requestId.orElse (fun _ => c.requestId))
    (o.userId.orElse (fun _ => c.userId))
    (o.userName.orElse (fun _ => c.userName))
    (o.hostname.orElse (fun _ => c.hostname))
    (o.processId.orElse (fun _ => c.processId))
    (o.processIdChain.getD c.processIdChain)
    (o.traceId.orElse (fun _ => c.traceId))
    (o.spanId.orElse (fun _ => c.spanId))
    (o.extra.getD c.extra)

/-- Models the chain fixups in `ContextBinder.bind`: when the computed frame
has an empty chain and a PID, seed the chain with that PID. -/
def fixChain (c : LogContextM) : LogContextM :=
  if c.processIdChain = [] then
    match c.processId with
    | some pid => { c with processIdChain := [pid] }
    | Option.none => c
  else c

/-- A required field is missing in the first-bind check when
`not fields.get(name)` holds, i.e. the argument is absent, `None`, or an
empty string. -/
def missingRequired (f : BindFieldsM) : List String :=
  (if f.service.getD "" = "" then ["service"] else []) ++
  (if f.environment.getD "" = "" then ["environment"] else []) ++
  (if f.jobId.getD "" = "" then ["job_id"] else [])

/-- Models the context computation of `ContextBinder.bind` up to the point
where the new frame is pushed: the first bind must supply the required
fields and builds the frame directly; a nested bind merges the non-`None`
overrides into the top frame.  Both paths apply the chain fixup. -/
def computeBindContext (stack : List LogContextM) (f : BindFieldsM) :
    Except String LogContextM :=
  match stack.getLast? with
  | Option.none =>
    if missingRequired f ≠ [] then
      .error ("Missing required context fields when no parent context exists: "
        ++ String.intercalate ", " (missingRequired f))
    else do
      let ctx ← mkLogContext (f.service.getD "") (f.environment.getD "")
        (f.jobId.getD "") f.requestId f.userId f.userName f.hostname
        f.processId (f.processIdChain.getD []) f.traceId f.spanId
        (f.extra.getD [])
      pure (fixChain ctx)
  | some base => do
    let ctx ← base.merge f
    pure (fixChain ctx)

/-- Outcome of the code executed inside a bound scope: it either returns
normally or raises. -/
inductive BodyOutcome (α : Type) where
  | normal (value : α)
  | raised (message : String)
deriving DecidableEq

/-- Models `ContextBinder.bind` as a context manager run to completion:
compute the frame (failing before any push when the fields are invalid), set
the context variable to the extended stack (`token = set(stack + (context,))`),
run the body, and in the `finally` block reset the variable to the
pre-bind stack. -/
def bindRun {α : Type} (stack : List LogContextM) (f : BindFieldsM)
    (body : List LogContextM → BodyOutcome α) :
    Except String (BodyOutcome α × List LogContextM) :=
  match computeBindContext stack f with
  | .error e => .error e
  | .ok ctx => .ok (body (stack ++ [ctx]), stack)

/-! ## Dump adapter (`adapters/dump.py`)

The renderers delegate to Rich; they are abstracted as a function from the
format and the filtered events to the rendered string.  The filesystem is a
set of existing directories plus the written files; `write_text` requires
the parent directory to exist and raises `FileNotFoundError` otherwise — the
adapter never creates directories. -/

inductive DumpFormatM where
  | text
  | json
  | htmlTable
  | htmlTxt
deriving DecidableEq

structure FileSystemM where
  dirs : List (List String)
  files : List (List String × String)
deriving DecidableEq

/-- Parent directory of a path given as segments. -/
def parentDir (p : List String) : List String := p.dropLast

/-- Models `pathlib.Path.write_text(content, encoding="utf-8")`. -/
def writeText (fs : FileSystemM) (p : List String) (content : String) :
    Except String FileSystemM :=
  if parentDir p ∈ fs.dirs then
    .ok { fs with files := fs.files ++ [(p, content)] }
  else .error "FileNotFoundError"

/-- Models `DumpAdapter.dump`: filter by minimum level, render with the
selected renderer, write to the target path when one is given, and return
the rendered string. -/
def DumpAdapterM.dump (render : DumpFormatM → List LogEventM → String)
    (events : List LogEventM) (dumpFormat : DumpFormatM)
    (path : Option (List String)) (minLevel : Option LogLevel)
    (fs : FileSystemM) : Except String (String × FileSystemM) :=
  let filtered := match minLevel with
    | some m => events.filter (fun e => m.value ≤ e.level.value)
    | Option.none => events
  let content := render dumpFormat filtered
  match path with
  | Option.none => .ok (content, fs)
  | some p =>
    match writeText fs p content with
    | .ok fs2 => .ok (content, fs2)
    | .error err => .error err

/-! ## Shared sample data -/

/-- A minimal valid context, as in the repository's tests. -/
def ctxSample : LogContextM :=
  { service := "svc", environment := "prod", jobId := "job" }

/-- A minimal valid event at a given timestamp. -/
def evAt (ts : Int) : LogEventM :=
  { eventId := "evt", timestamp := ts, loggerName := "tests",
    level := LogLevel.info, message := "msg", context := ctxSample }

/-! ## Ring buffer lemmas -/

theorem RingBufferM.append_maxEvents (rb : RingBufferM) (e : LogEventM) :
    (rb.append e).maxEvents = rb.maxEvents := rfl

theorem RingBufferM.appendList_maxEvents (rb : RingBufferM) (evs : List LogEventM) :
    (rb.appendList evs).maxEvents = rb.maxEvents := by
  induction evs generalizing rb with
  | nil => rfl
  | cons e rest ih => simpa [RingBufferM.appendList] using ih (rb.append e)

/-- Closed form of a run of appends: the buffer is the suffix of the append
stream that fits in the capacity. -/
theorem RingBufferM.appendList_buffer (rb : RingBufferM) (evs : List LogEventM)
    (hlen : rb.buffer.length ≤ rb.maxEvents) (hM : 0 < rb.maxEvents) :
    (rb.appendList evs).buffer =
      (rb.buffer ++ evs).drop (rb.buffer.length + evs.length - rb.maxEvents) := by
  induction evs generalizing rb with
  | nil =>
    simp [RingBufferM.appendList, Nat.sub_eq_zero_of_le hlen]
  | cons e rest ih =>
    have hmax : (rb.append e).maxEvents = rb.maxEvents := rfl
    by_cases hfull : rb.maxEvents < rb.buffer.length + 1
    · have hbe : rb.buffer.length = rb.maxEvents := by omega
      have hbuf1 : (rb.append e).buffer = (rb.buffer ++ [e]).drop 1 := by
        simp only [RingBufferM.append]
        rw [List.length_append]
        simp only [List.length_singleton]
        rw [if_pos (by omega)]
        congr 1
        omega
      have hlen1 : (rb.append e).buffer.length = rb.maxEvents := by
        rw [hbuf1, List.length_drop, List.length_append]
        simp only [List.length_singleton]
        omega
      have ihr := ih (rb.append e) (by rw [hlen1, hmax]) (by rw [hmax]; exact hM)
      rw [RingBufferM.appendList, ihr, hmax, hlen1, hbuf1]
      have hne : rb.buffer ++ [e] ≠ [] := by simp
      have h1le : 1 ≤ (rb.buffer ++ [e]).length := by
        simp [List.length_append]
      have hctx : rb.buffer ++ [e] ++ rest = rb.buffer ++ e :: rest := by simp
      calc (((rb.buffer ++ [e]).drop 1 ++ rest)).drop (rb.maxEvents + rest.length - rb.maxEvents)
          = (((rb.buffer ++ [e]).drop 1 ++ rest)).drop rest.length := by congr 1; omega
        _ = (((rb.buffer ++ [e]) ++ rest).drop 1).drop rest.length := by
              rw [List.drop_append_of_le_length h1le]
        _ = ((rb.buffer ++ [e]) ++ rest).drop (1 + rest.length) := by
              rw [List.drop_drop]
        _ = (rb.buffer ++ e :: rest).drop (rb.buffer.length + (rest.length + 1) - rb.maxEvents) := by
              rw [hctx]
              congr 1
              omega
    · have hbuf1 : (rb.append e).buffer = rb.buffer ++ [e] := by
        simp only [RingBufferM.append]
        rw [List.length_append]
        simp only [List.length_singleton]
        rw [if_neg (by omega)]
      have hlen1 : (rb.append e).buffer.length ≤ rb.maxEvents := by
        rw [hbuf1, List.length_append]; simp only [List.length_singleton]; omega
      have ihr := ih (rb.append e) (by rw [hmax]; exact hlen1) (by rw [hmax]; exact hM)
      rw [RingBufferM.appendList, ihr, hmax, hbuf1]
      rw [List.length_append]
      simp only [List.length_singleton]
      have hctx : rb.buffer ++ [e] ++ rest = rb.buffer ++ e :: rest := by simp
      rw [hctx]
      congr 1
      simp only [List.length_cons]
      omega

/-- Claim C4: for every ring buffer constructed with capacity N > 0 and every
finite sequence of appends, the length never exceeds N, the snapshot is
exactly the last min(appended, N) events oldest-to-newest (oldest evicted
first), capacity 1 retains only the most recent event, and construction with
N ≤ 0 fails. -/
theorem claim_C4 (n : Int) (hn : 0 < n) (events : List LogEventM) :
    (mkRingBuffer n = .ok { maxEvents := n.toNat, buffer := [] }) ∧
    (∀ evs : List LogEventM,
      (({ maxEvents := n.toNat, buffer := [] } : RingBufferM).appendList evs).snapshot.length ≤ n.toNat) ∧
    (({ maxEvents := n.toNat, buffer := [] } : RingBufferM).appendList events).snapshot
      = events.drop (events.length - n.toNat) ∧
    (({ maxEvents := n.toNat, buffer := [] } : RingBufferM).appendList events).snapshot.length
      = min events.length n.toNat ∧
    (n = 1 → ∀ (e : LogEventM) (evs : List LogEventM),
      (({ maxEvents := 1, buffer := [] } : RingBufferM).appendList (evs ++ [e])).snapshot = [e]) ∧
    (∀ m : Int, m ≤ 0 → mkRingBuffer m = .error "max_events must be positive") := by
  have hpos : 0 < n.toNat := by omega
  have hbase : ∀ evs : List LogEventM,
      (({ maxEvents := n.toNat, buffer := [] } : RingBufferM).appendList evs).buffer
        = evs.drop (evs.length - n.toNat) := by
    intro evs
    have := RingBufferM.appendList_buffer
      { maxEvents := n.toNat, buffer := [] } evs (by simp) hpos
    simpa using this
  refine ⟨?_, ?_, ?_, ?_, ?_, ?_⟩
  · unfold mkRingBuffer
    rw [if_neg (by omega : ¬ n ≤ 0)]
  · intro evs
    show (({ maxEvents := n.toNat, buffer := [] } : RingBufferM).appendList evs).buffer.length ≤ n.toNat
    rw [hbase evs, List.length_drop]
    omega
  · exact hbase events
  · show (({ maxEvents := n.toNat, buffer := [] } : RingBufferM).appendList events).buffer.length
      = min events.length n.toNat
    rw [hbase events, List.length_drop]
    omega
  · intro h1 e evs
    have hone : (1 : Int).toNat = 1 := rfl
    have hb := RingBufferM.appendList_buffer
      { maxEvents := 1, buffer := [] } (evs ++ [e]) (by simp) (by decide)
    show (({ maxEvents := 1, buffer := [] } : RingBufferM).appendList (evs ++ [e])).buffer = [e]
    rw [hb]
    simp [List.length_append]
  · intro m hm
    unfold mkRingBuffer
    rw [if_pos hm]

/-- Witness for claim C4 at capacity 2 and three appended events. -/
theorem claim_C4_witness :
    (mkRingBuffer 2 = .ok { maxEvents := 2, buffer := [] }) ∧
    (({ maxEvents := 2, buffer := [] } : RingBufferM).appendList [evAt 1, evAt 2, evAt 3]).snapshot
      = [evAt 2, evAt 3] ∧
    (mkRingBuffer 0 = .error "max_events must be positive") := by
  obtain ⟨h1, _, h3, _, _, h6⟩ := claim_C4 2 (by decide) [evAt 1, evAt 2, evAt 3]
  exact ⟨h1, by simpa using h3, h6 0 (by decide)⟩

/-! ## Rate limiter lemmas -/

theorem purgeBucket_filter_of_sorted (c : Int) (l : List Int)
    (h : List.Sorted (· ≤ ·) l) :
    purgeBucket c l = l.filter (fun t => decide (c < t)) := by
  induction l with
  | nil => rfl
  | cons t rest ih =>
    rw [List.sorted_cons] at h
    by_cases hc : t ≤ c
    · rw [purgeBucket, if_pos hc, List.filter_cons,
        if_neg (by simpa using (by omega : ¬ c < t))]
      exact ih h.2
    · rw [purgeBucket, if_neg hc, List.filter_cons,
        if_pos (by simpa using (by omega : c < t))]
      have : rest.filter (fun t => decide (c < t)) = rest := by
        apply List.filter_eq_self.mpr
        intro u hu
        have := h.1 u hu
        simpa using (by omega : c < u)
      rw [this]

theorem purgeBucket_dropped (c : Int) (l : List Int) :
    ∃ d, l = d ++ purgeBucket c l ∧ ∀ u ∈ d, u ≤ c := by
  induction l with
  | nil => exact ⟨[], rfl, by simp⟩
  | cons t rest ih =>
    by_cases hc : t ≤ c
    · obtain ⟨d, hd, hdc⟩ := ih
      refine ⟨t :: d, ?_, ?_⟩
      · rw [purgeBucket, if_pos hc]
        simpa using hd
      · intro u hu
        rcases List.mem_cons.mp hu with h | h
        · omega
        · exact hdc u h
    · exact ⟨[], by rw [purgeBucket, if_neg hc]; simp, by simp⟩

theorem purgeBucket_nil_of_all_le (c : Int) (l : List Int)
    (h : ∀ t ∈ l, t ≤ c) : purgeBucket c l = [] := by
  induction l with
  | nil => rfl
  | cons t rest ih =>
    rw [purgeBucket, if_pos (h t (by simp))]
    exact ih (fun u hu => h u (List.mem_cons_of_mem t hu))

theorem bucketAllow_fst (m : Nat) (i : Int) (bk : List Int) (ts : Int) :
    (bucketAllow m i bk ts).1 = decide ((purgeBucket (ts - i) bk).length < m) := by
  simp only [bucketAllow]
  by_cases h : m ≤ (purgeBucket (ts - i) bk).length
  · rw [if_pos h]
    have : ¬ (purgeBucket (ts - i) bk).length < m := by omega
    simp [this]
  · rw [if_neg h]
    have : (purgeBucket (ts - i) bk).length < m := by omega
    simp [this]

theorem sorted_le_append {l₁ l₂ : List Int} :
    List.Sorted (· ≤ ·) (l₁ ++ l₂) ↔
      List.Sorted (· ≤ ·) l₁ ∧ List.Sorted (· ≤ ·) l₂ ∧
        ∀ a ∈ l₁, ∀ b ∈ l₂, a ≤ b :=
  List.pairwise_append

/-- Invariant of the bucket simulation over a nondecreasing trace: the
accepted history is sorted, drawn from the trace, and decomposes into a
purged-away old prefix plus the current bucket. -/
def BucketInv (interval : Int) (tss bucket accepted : List Int) : Prop :=
  List.Sorted (· ≤ ·) accepted ∧
  (∀ u ∈ accepted, u ∈ tss) ∧
  ∃ d, accepted = d ++ bucket ∧ ∀ u ∈ d, ∃ t ∈ tss, u + interval ≤ t

theorem simRun_inv (maxEvents : Nat) (interval : Int) (tss : List Int)
    (h : List.Sorted (· ≤ ·) tss) :
    BucketInv interval tss (simRun maxEvents interval tss).1
      (simRun maxEvents interval tss).2 := by
  induction tss using List.reverseRecOn with
  | nil =>
    exact ⟨by simp [simRun], by simp [simRun], [], by simp [simRun], by simp⟩
  | append_singleton tss t ih =>
    have hsplit := sorted_le_append.mp h
    have hts : List.Sorted (· ≤ ·) tss := hsplit.1
    have hle : ∀ u ∈ tss, u ≤ t := fun u hu => hsplit.2.2 u hu t (by simp)
    obtain ⟨hsorted, hmem, d, hdec, hold⟩ := ih hts
    have hrun : simRun maxEvents interval (tss ++ [t])
        = simStep maxEvents interval (simRun maxEvents interval tss) t := by
      simp [simRun, List.foldl_append]
    set b := (simRun maxEvents interval tss).1 with hb
    set acc := (simRun maxEvents interval tss).2 with hacc
    have hbsorted : List.Sorted (· ≤ ·) b := by
      have : List.Sorted (· ≤ ·) (d ++ b) := hdec ▸ hsorted
      exact (sorted_le_append.mp this).2.1
    have haccle : ∀ u ∈ acc, u ≤ t := fun u hu => hle u (hmem u hu)
    obtain ⟨dp, hdp, hdpc⟩ := purgeBucket_dropped (t - interval) b
    rw [hrun]
    by_cases hfull : maxEvents ≤ (purgeBucket (t - interval) b).length
    · have hstep : simStep maxEvents interval (b, acc) t
          = (purgeBucket (t - interval) b, acc) := by
        simp [simStep, bucketAllow, hfull]
      refine ⟨?_, ?_, d ++ dp, ?_, ?_⟩
      · rw [hstep]; exact hsorted
      · rw [hstep]
        intro u hu
        exact List.mem_append_left _ (hmem u hu)
      · rw [hstep]
        show acc = (d ++ dp) ++ purgeBucket (t - interval) b
        rw [List.append_assoc, ← hdp, ← hdec]
      · intro u hu
        rcases List.mem_append.mp hu with h1 | h1
        · obtain ⟨t0, ht0, hut0⟩ := hold u h1
          exact ⟨t0, List.mem_append_left _ ht0, hut0⟩
        · exact ⟨t, List.mem_append_right _ (by simp), by have := hdpc u h1; omega⟩
    · have hstep : simStep maxEvents interval (b, acc) t
          = (purgeBucket (t - interval) b ++ [t], acc ++ [t]) := by
        simp [simStep, bucketAllow, hfull]
      refine ⟨?_, ?_, d ++ dp, ?_, ?_⟩
      · rw [hstep]
        apply sorted_le_append.mpr
        exact ⟨hsorted, by simp, fun a ha bb hbb => by
          simp at hbb
          subst hbb
          exact haccle a ha⟩
      · rw [hstep]
        intro u hu
        rcases List.mem_append.mp hu with h1 | h1
        · exact List.mem_append_left _ (hmem u h1)
        · exact List.mem_append_right _ h1
      · rw [hstep]
        show acc ++ [t] = (d ++ dp) ++ (purgeBucket (t - interval) b ++ [t])
        rw [List.append_assoc, ← List.append_assoc dp, ← hdp, hdec, List.append_assoc]
      · intro u hu
        rcases List.mem_append.mp hu with h1 | h1
        · obtain ⟨t0, ht0, hut0⟩ := hold u h1
          exact ⟨t0, List.mem_append_left _ ht0, hut0⟩
        · exact ⟨t, List.mem_append_right _ (by simp), by have := hdpc u h1; omega⟩

/-- Claim C5, amended: when the events of a bucket arrive with nondecreasing
timestamps, `allow` returns true exactly when the number of previously
accepted events with timestamps in the half-open window
`(event.ts − interval, event.ts]` is strictly below `max_events`; and `allow`
on the limiter acts as `bucketAllow` on the bucket of the event's
`(logger_name, severity)` key. -/
theorem claim_C5 (maxEvents : Nat) (interval : Int) (tss : List Int)
    (hsorted : List.Sorted (· ≤ ·) tss) (now : Int)
    (hnow : ∀ t ∈ tss, t ≤ now) :
    ((bucketAllow maxEvents interval (simRun maxEvents interval tss).1 now).1 = true
      ↔ windowCount (simRun maxEvents interval tss).2 interval now < maxEvents) ∧
    (∀ (lim : SlidingWindowRateLimiterM) (ev : LogEventM),
      lim.allow ev =
        ((bucketAllow lim.maxEvents lim.interval
            (getBucket lim.buckets (ev.loggerName, ev.level.severity)) ev.timestamp).1,
         { lim with
             buckets := setBucket lim.buckets (ev.loggerName, ev.level.severity)
               (bucketAllow lim.maxEvents lim.interval
                 (getBucket lim.buckets (ev.loggerName, ev.level.severity)) ev.timestamp).2 })) := by
  constructor
  · obtain ⟨hsa, hmem, d, hdec, hold⟩ := simRun_inv maxEvents interval tss hsorted
    set b := (simRun maxEvents interval tss).1 with hbdef
    set acc := (simRun maxEvents interval tss).2 with haccdef
    have hbsorted : List.Sorted (· ≤ ·) b := by
      have : List.Sorted (· ≤ ·) (d ++ b) := hdec ▸ hsa
      exact (sorted_le_append.mp this).2.1
    have hpurge : purgeBucket (now - interval) b
        = b.filter (fun t => decide (now - interval < t)) :=
      purgeBucket_filter_of_sorted _ _ hbsorted
    have hwc : windowCount acc interval now = (purgeBucket (now - interval) b).length := by
      rw [hpurge]
      unfold windowCount
      rw [hdec, List.filter_append]
      have hd0 : d.filter (fun t => decide (now - interval < t) && decide (t ≤ now)) = [] := by
        apply List.filter_eq_nil_iff.mpr
        intro u hu
        obtain ⟨t0, ht0, hut⟩ := hold u hu
        have ht0n : t0 ≤ now := hnow t0 ht0
        simp only [Bool.and_eq_true, decide_eq_true_eq, not_and]
        omega
      have hbf : b.filter (fun t => decide (now - interval < t) && decide (t ≤ now))
          = b.filter (fun t => decide (now - interval < t)) := by
        apply List.filter_congr
        intro u hu
        have humem : u ∈ acc := by rw [hdec]; exact List.mem_append_right d hu
        have hun : u ≤ now := hnow u (hmem u humem)
        simp [hun]
      rw [hd0, hbf, List.nil_append]
    rw [hwc, bucketAllow_fst]
    simp
  · intro lim ev
    rcases hba : bucketAllow lim.maxEvents lim.interval
      (getBucket lim.buckets (ev.loggerName, ev.level.severity)) ev.timestamp with ⟨ok, bb⟩
    simp [SlidingWindowRateLimiterM.allow, hba]

/-- Counterexample to claim C5 as stated (without the nondecreasing-timestamp
hypothesis): with `max_events = 2`, `interval = 1000` and events of one
bucket at timestamps 5000, 0, 2000, the first two are accepted, and the
third is denied although zero previously accepted timestamps lie in its
window `(1000, 2000]`. -/
theorem claim_C5_counterexample :
    (({ maxEvents := 2, interval := 1000, buckets := [] } :
        SlidingWindowRateLimiterM).run [evAt 5000, evAt 0, evAt 2000]).1
      = [true, true, false] ∧
    (simRun 2 1000 [5000, 0]).2 = [5000, 0] ∧
    windowCount [5000, 0] 1000 2000 = 0 ∧ (0 : Nat) < 2 := by
  refine ⟨by decide, by decide, by decide, by decide⟩

/-- Witness for claim C5: configuration (1, 1000) with one event accepted at
time 0; the characterisation applies at a second event inside the window
(time 500) and at the first event past the window (time 1500). -/
theorem claim_C5_witness :
    (((bucketAllow 1 1000 (simRun 1 1000 [0]).1 500).1 = true
      ↔ windowCount (simRun 1 1000 [0]).2 1000 500 < 1) ∧
     ((bucketAllow 1 1000 (simRun 1 1000 [0]).1 1500).1 = true
      ↔ windowCount (simRun 1 1000 [0]).2 1000 1500 < 1)) ∧
    ((bucketAllow 1 1000 (simRun 1 1000 [0]).1 500).1 = false ∧
     (bucketAllow 1 1000 (simRun 1 1000 [0]).1 1500).1 = true) := by
  have h1 := (claim_C5 1 1000 [0] (List.sorted_singleton 0) 500
    (by intro t ht; simp at ht; omega)).1
  have h2 := (claim_C5 1 1000 [0] (List.sorted_singleton 0) 1500
    (by intro t ht; simp at ht; omega)).1
  exact ⟨⟨h1, h2⟩, by decide, by decide⟩

/-- Claim C10: a denied event leaves the bucket equal to the purge of the
expired entries (its timestamp is not recorded); on the full limiter a
denied call only purges the event's bucket; and an event whose timestamp
exceeds every recorded timestamp by more than the interval is accepted
(provided the limiter can accept at all, `max_events ≥ 1`). -/
theorem claim_C10 (maxEvents : Nat) (interval : Int) (bucket : List Int)
    (now : Int) :
    (∀ b', bucketAllow maxEvents interval bucket now = (false, b') →
      b' = purgeBucket (now - interval) bucket) ∧
    (∀ (lim : SlidingWindowRateLimiterM) (ev : LogEventM),
      (lim.allow ev).1 = false →
      (lim.allow ev).2.buckets =
        setBucket lim.buckets (ev.loggerName, ev.level.severity)
          (purgeBucket (ev.timestamp - lim.interval)
            (getBucket lim.buckets (ev.loggerName, ev.level.severity)))) ∧
    (0 < maxEvents → (∀ t ∈ bucket, t + interval < now) →
      (bucketAllow maxEvents interval bucket now).1 = true) := by
  have hdeny : ∀ (m : Nat) (i : Int) (bk : List Int) (ts : Int) (b' : List Int),
      bucketAllow m i bk ts = (false, b') → b' = purgeBucket (ts - i) bk := by
    intro m i bk ts b' h
    unfold bucketAllow at h
    by_cases hfull : m ≤ (purgeBucket (ts - i) bk).length
    · rw [if_pos hfull] at h
      exact (Prod.mk.injEq _ _ _ _ ▸ h).2.symm
    · rw [if_neg hfull] at h
      cases (Prod.mk.injEq _ _ _ _ ▸ h).1
  refine ⟨hdeny maxEvents interval bucket now, ?_, ?_⟩
  · intro lim ev
    rcases hba : bucketAllow lim.maxEvents lim.interval
      (getBucket lim.buckets (ev.loggerName, ev.level.severity)) ev.timestamp with ⟨ok, bb⟩
    simp only [SlidingWindowRateLimiterM.allow, hba]
    intro hfalse
    replace hfalse : ok = false := hfalse
    subst hfalse
    have hbb := hdeny _ _ _ _ bb hba
    show setBucket lim.buckets (ev.loggerName, ev.level.severity) bb = _
    rw [hbb]
  · intro hpos hfresh
    unfold bucketAllow
    have hempty : purgeBucket (now - interval) bucket = [] := by
      apply purgeBucket_nil_of_all_le
      intro t ht
      have := hfresh t ht
      omega
    rw [hempty]
    simp only [List.length_nil]
    rw [if_neg (by omega)]

/-- Witness for claim C10: with limit 1 and interval 1000, a call at time 600
against the bucket holding 500 is denied and leaves the purge result, while
a call at time 1501 against the bucket holding 500 is accepted. -/
theorem claim_C10_witness :
    ((bucketAllow 1 1000 [500] 600).2 = purgeBucket (600 - 1000) [500]) ∧
    ((bucketAllow 1 1000 [500] 1501).1 = true) := by
  constructor
  · exact (claim_C10 1 1000 [500] 600).1 (bucketAllow 1 1000 [500] 600).2 (by decide)
  · exact (claim_C10 1 1000 [500] 1501).2.2 (by decide)
      (by intro t ht; simp at ht; omega)

/-! ## Scrubber lemmas (claim C1) -/

theorem lookupKey_updateKey (k kp : String) (f : PyValue → PyValue)
    (es : List (String × PyValue)) :
    lookupKey k (updateKey kp f es) =
      if k = kp then (lookupKey k es).map f else lookupKey k es := by
  induction es with
  | nil => simp [updateKey, lookupKey]
  | cons kv rest ih =>
    simp only [updateKey, List.map_cons] at ih ⊢
    by_cases hkp : kv.1 = kp
    · by_cases hk : kv.1 = k
      · have hkkp : k = kp := hk.symm.trans hkp
        simp [lookupKey, hkp, hk, hkkp]
      · have hknkp : ¬ k = kp := fun h => hk (by rw [hkp, ← h])
        simp [lookupKey, hkp, hk, hknkp, ih, show ¬ kp = k from fun h => hknkp h.symm]
    · by_cases hk : kv.1 = k
      · have hknkp : ¬ k = kp := fun h => hkp (by rw [← h, hk])
        simp [lookupKey, hkp, hk, hknkp]
      · simp [lookupKey, hkp, hk, ih]

theorem hasKey_eq_isSome (k : String) (es : List (String × PyValue)) :
    hasKey k es = (lookupKey k es).isSome := by
  induction es with
  | nil => simp [hasKey, lookupKey]
  | cons kv rest ih =>
    by_cases hk : kv.1 = k
    · simp [hasKey, lookupKey, hk]
    · simp only [hasKey, List.any_cons, lookupKey, if_neg hk]
      rw [show (decide (kv.1 = k)) = false by simpa using hk]
      simpa [hasKey] using ih

theorem patternFor_eq_none (k : String)
    (pats : List (String × (String → Bool)))
    (h : k ∉ pats.map Prod.fst) : patternFor k pats = Option.none := by
  induction pats with
  | nil => rfl
  | cons p rest ih =>
    simp only [List.map_cons, List.mem_cons] at h
    push_neg at h
    rw [patternFor, if_neg (fun he => h.1 he.symm)]
    exact ih h.2

/-- Claim C1, amended: redaction is keyed by the top-level field names of the
extras mapping only.  For every configured field name, when it is present at
the top level its value is scrubbed recursively (and within that value every
string or decoded bytes payload matching the regex is replaced, at any
nesting depth); a key that is not configured keeps its value unchanged, even
when nested mappings below it contain configured field names.  The event's
other fields are untouched and the original extras list is not mutated. -/
theorem claim_C1 (patterns : List (String × (String → Bool))) (repl : String)
    (e : LogEventM) (hnd : (patterns.map Prod.fst).Nodup) :
    (RegexScrubber.scrub patterns repl e
      = { e with extra := scrubExtra patterns repl e.extra }) ∧
    (∀ k, lookupKey k (scrubExtra patterns repl e.extra) =
      match patternFor k patterns with
      | some f => (lookupKey k e.extra).map (scrubValue f repl)
      | Option.none => lookupKey k e.extra) := by
  refine ⟨rfl, ?_⟩
  intro k
  induction patterns generalizing e with
  | nil => simp [scrubExtra, patternFor]
  | cons p rest ih =>
    simp only [List.map_cons, List.nodup_cons] at hnd
    have hstep : scrubExtra (p :: rest) repl e.extra
        = scrubExtra rest repl
            (if hasKey p.1 e.extra then updateKey p.1 (scrubValue p.2 repl) e.extra
             else e.extra) := by
      simp [scrubExtra]
    set extra1 := (if hasKey p.1 e.extra then updateKey p.1 (scrubValue p.2 repl) e.extra
             else e.extra) with hextra1
    have ihr := ih { e with extra := extra1 } hnd.2
    rw [show ({ e with extra := extra1 } : LogEventM).extra = extra1 from rfl] at ihr
    by_cases hk : k = p.1
    · rw [hstep, ihr]
      have hnone : patternFor k rest = Option.none := by
        apply patternFor_eq_none
        rw [hk]
        simpa using hnd.1
      rw [hnone]
      simp only [patternFor]
      rw [if_pos hk.symm]
      by_cases hhk : hasKey p.1 e.extra
      · rw [hextra1, if_pos hhk, lookupKey_updateKey, if_pos hk]
      · rw [hextra1, if_neg hhk]
        have hlk : lookupKey p.1 e.extra = Option.none := by
          have hiso := hasKey_eq_isSome p.1 e.extra
          rw [show hasKey p.1 e.extra = false by simpa using hhk] at hiso
          cases hl : lookupKey p.1 e.extra
          · rfl
          · rw [hl] at hiso; simp at hiso
        rw [hk, hlk]
        rfl
    · rw [hstep, ihr]
      simp only [patternFor]
      rw [if_neg (fun h => hk h.symm)]
      have hsame : lookupKey k extra1 = lookupKey k e.extra := by
        rw [hextra1]
        by_cases hhk : hasKey p.1 e.extra
        · rw [if_pos hhk, lookupKey_updateKey, if_neg hk]
        · rw [if_neg hhk]
      cases hpf : patternFor k rest
      · rw [hsame]
      · rw [hsame]

/-- Counterexample to claim C1 as stated: with patterns keyed `token`
(regex `.+`, modelled by its search predicate: any non-empty string matches)
and the claim's example extras, the code scrubs only the top-level `token`
entry; the `token` entry nested under the unconfigured key `nested` keeps
its value `xyz`, but the claim demands `***` there. -/
theorem claim_C1_counterexample :
    scrubExtra [("token", fun s => !s.isEmpty)] "***"
      [("token", PyValue.str "abc"),
       ("nested", PyValue.map (PyFields.cons "token" (PyValue.str "xyz")
         (PyFields.cons "ok" (PyValue.str "keep") PyFields.nil))),
       ("list", PyValue.listVal (PyItems.cons (PyValue.str "token-bearer") PyItems.nil))]
    = [("token", PyValue.str "***"),
       ("nested", PyValue.map (PyFields.cons "token" (PyValue.str "xyz")
         (PyFields.cons "ok" (PyValue.str "keep") PyFields.nil))),
       ("list", PyValue.listVal (PyItems.cons (PyValue.str "token-bearer") PyItems.nil))] ∧
    scrubExtra [("token", fun s => !s.isEmpty)] "***"
      [("token", PyValue.str "abc"),
       ("nested", PyValue.map (PyFields.cons "token" (PyValue.str "xyz")
         (PyFields.cons "ok" (PyValue.str "keep") PyFields.nil))),
       ("list", PyValue.listVal (PyItems.cons (PyValue.str "token-bearer") PyItems.nil))]
    ≠ [("token", PyValue.str "***"),
       ("nested", PyValue.map (PyFields.cons "token" (PyValue.str "***")
         (PyFields.cons "ok" (PyValue.str "keep") PyFields.nil))),
       ("list", PyValue.listVal (PyItems.cons (PyValue.str "token-bearer") PyItems.nil))] := by
  constructor
  · rfl
  · intro h
    have := congrArg (fun l => lookupKey "nested" l) h
    simp [lookupKey] at this

/-- Witness for claim C1 on the example input: the configured top-level
`token` is redacted, the unconfigured key `nested` is untouched. -/
theorem claim_C1_witness :
    lookupKey "token" (scrubExtra [("token", fun s => !s.isEmpty)] "***"
      [("token", PyValue.str "abc"),
       ("nested", PyValue.map (PyFields.cons "token" (PyValue.str "xyz") PyFields.nil))])
      = some (PyValue.str "***") ∧
    lookupKey "nested" (scrubExtra [("token", fun s => !s.isEmpty)] "***"
      [("token", PyValue.str "abc"),
       ("nested", PyValue.map (PyFields.cons "token" (PyValue.str "xyz") PyFields.nil))])
      = some (PyValue.map (PyFields.cons "token" (PyValue.str "xyz") PyFields.nil)) := by
  have h := (claim_C1 [("token", fun s => !s.isEmpty)] "***"
    { eventId := "evt", timestamp := 0, loggerName := "tests",
      level := LogLevel.info, message := "msg", context := ctxSample,
      extra := [("token", PyValue.str "abc"),
        ("nested", PyValue.map (PyFields.cons "token" (PyValue.str "xyz") PyFields.nil))] }
    (by simp)).2
  constructor
  · rw [h "token"]
    rfl
  · rw [h "nested"]
    rfl

/-! ## Checkpoint loading (claim C3) -/

/-- A checkpoint line the model parser accepts (stands for one canonical
event mapping in JSON). -/
def goodLine : String := "\x7b\"event_id\": \"evt\"\x7d"

/-- A malformed checkpoint line (json.loads raises on it). -/
def badLine : String := "\x7bnot-json"

/-- A concrete parser model: accepts exactly `goodLine`. -/
def parseEx (s : String) : Option LogEventM :=
  if s = goodLine then some (evAt 0) else Option.none

/-- Claim C3, amended: load-on-construct skips blank lines and appends every
parsed line, but a line the parser rejects raises out of the constructor
(only `FileNotFoundError` is caught); well-formed lines before the malformed
one are loaded, construction does not complete. -/
theorem claim_C3 (parse : String → Option LogEventM) :
    (∀ (rb : RingBufferM) (lines : List String),
      (∀ l ∈ lines, pyStrip l = "" ∨ (parse l).isSome) →
      rb.loadCheckpoint parse lines =
        .ok (rb.appendList (lines.filterMap
          (fun l => if pyStrip l = "" then Option.none else parse l)))) ∧
    (∀ (rb : RingBufferM) (pre : List String) (bad : String) (post : List String),
      (∀ l ∈ pre, pyStrip l = "" ∨ (parse l).isSome) →
      pyStrip bad ≠ "" → parse bad = Option.none →
      rb.loadCheckpoint parse (pre ++ bad :: post) = .error "json.JSONDecodeError") := by
  constructor
  · intro rb lines
    induction lines generalizing rb with
    | nil => intro _; rfl
    | cons l rest ih =>
      intro hall
      have hl := hall l (by simp)
      by_cases hblank : pyStrip l = ""
      · rw [RingBufferM.loadCheckpoint, if_pos hblank]
        rw [ih rb (fun x hx => hall x (List.mem_cons_of_mem l hx))]
        rw [List.filterMap_cons, if_pos hblank]
      · rcases hl with h | h
        · exact absurd h hblank
        · obtain ⟨e, he⟩ := Option.isSome_iff_exists.mp h
          have hred : rb.loadCheckpoint parse (l :: rest)
              = (rb.append e).loadCheckpoint parse rest := by
            rw [RingBufferM.loadCheckpoint, if_neg hblank, he]
          rw [hred, ih (rb.append e) (fun x hx => hall x (List.mem_cons_of_mem l hx))]
          rw [List.filterMap_cons, if_neg hblank, he]
          rfl
  · intro rb pre bad post hpre hbad hparse
    induction pre generalizing rb with
    | nil =>
      rw [List.nil_append, RingBufferM.loadCheckpoint, if_neg hbad, hparse]
    | cons l rest ih =>
      have hl := hpre l (by simp)
      by_cases hblank : pyStrip l = ""
      · rw [List.cons_append, RingBufferM.loadCheckpoint, if_pos hblank]
        exact ih rb (fun x hx => hpre x (List.mem_cons_of_mem l hx))
      · rcases hl with h | h
        · exact absurd h hblank
        · obtain ⟨e, he⟩ := Option.isSome_iff_exists.mp h
          have hred : rb.loadCheckpoint parse ((l :: rest) ++ bad :: post)
              = (rb.append e).loadCheckpoint parse (rest ++ bad :: post) := by
            rw [List.cons_append, RingBufferM.loadCheckpoint, if_neg hblank, he]
          rw [hred]
          exact ih (rb.append e) (fun x hx => hpre x (List.mem_cons_of_mem l hx))

/-- Counterexample to claim C3 as stated: a checkpoint file mixing
well-formed and malformed lines does not complete construction; the
malformed second line raises out of the constructor even though the first
and third lines are well-formed. -/
theorem claim_C3_counterexample :
    mkRingBufferFromCheckpoint 10 parseEx [goodLine, badLine, goodLine]
      = .error "json.JSONDecodeError" := by
  rfl

/-- Witness for claim C3: blank lines are skipped on an all-parseable file,
and one malformed line after a well-formed one raises. -/
theorem claim_C3_witness :
    (({ maxEvents := 10, buffer := [] } : RingBufferM).loadCheckpoint parseEx
        [goodLine, "", goodLine] =
      .ok (({ maxEvents := 10, buffer := [] } : RingBufferM).appendList
        ([goodLine, "", goodLine].filterMap
          (fun l => if pyStrip l = "" then Option.none else parseEx l)))) ∧
    (({ maxEvents := 10, buffer := [] } : RingBufferM).loadCheckpoint parseEx
        ([goodLine] ++ badLine :: []) = .error "json.JSONDecodeError") := by
  constructor
  · exact (claim_C3 parseEx).1 { maxEvents := 10, buffer := [] }
      [goodLine, "", goodLine] (by decide)
  · exact (claim_C3 parseEx).2 { maxEvents := 10, buffer := [] }
      [goodLine] badLine [] (by decide) (by decide) (by decide)

/-! ## Pipeline lemmas (claim C2) -/

theorem counterOf_bumpCounter_self (k : String) (m : List (String × Nat)) :
    counterOf k (bumpCounter k m) = counterOf k m + 1 := by
  induction m with
  | nil => simp [bumpCounter, counterOf]
  | cons kv rest ih =>
    by_cases hk : kv.1 = k
    · simp [bumpCounter, counterOf, hk]
    · simp [bumpCounter, counterOf, hk, ih]

theorem counterOf_bumpCounter_other (k k2 : String) (m : List (String × Nat))
    (hne : k2 ≠ k) : counterOf k2 (bumpCounter k m) = counterOf k2 m := by
  have hne2 : ¬ k = k2 := fun h => hne h.symm
  induction m with
  | nil => simp [bumpCounter, counterOf, hne2]
  | cons kv rest ih =>
    by_cases hk : kv.1 = k
    · have hnk2 : ¬ kv.1 = k2 := fun h => hne (h ▸ hk)
      simp [bumpCounter, counterOf, hk, hnk2, hne2]
    · by_cases hk2 : kv.1 = k2
      · simp [bumpCounter, counterOf, hk, hk2, hne]
      · simp [bumpCounter, counterOf, hk, hk2, ih]

/-- Claim C2: when the rate limiter denies the crafted event, the pipeline
returns ok=false with reason rate_limited, records exactly one drop with
reason rate_limited (other drop counters and the severity counters are
untouched), emits the rate_limited diagnostic, and leaves the ring buffer
unchanged. -/
theorem claim_C2 (tk : PipelineToolkitM) (st : PipelineStateM) (ev0 : LogEventM)
    (hdeny : tk.allow (tk.scrub ev0) = false) :
    (processCall tk st ev0).1 =
      { ok := false, reason := some "rate_limited",
        eventId := Option.none, queued := Option.none } ∧
    (processCall tk st ev0).2.ring = st.ring ∧
    counterOf "rate_limited" (processCall tk st ev0).2.monitor.drops
      = counterOf "rate_limited" st.monitor.drops + 1 ∧
    (∀ r : String, r ≠ "rate_limited" →
      counterOf r (processCall tk st ev0).2.monitor.drops
        = counterOf r st.monitor.drops) ∧
    (processCall tk st ev0).2.monitor.byLevel = st.monitor.byLevel ∧
    (processCall tk st ev0).2.diagnostics = st.diagnostics ++
      [("rate_limited",
        [("event_id", (tk.scrub ev0).eventId),
         ("logger", (tk.scrub ev0).loggerName),
         ("level", (tk.scrub ev0).level.name)])] := by
  have hcall : processCall tk st ev0 = rejectDueToRateLimit st (tk.scrub ev0) := by
    simp [processCall, hdeny]
  rw [hcall]
  unfold rejectDueToRateLimit
  refine ⟨rfl, rfl, ?_, ?_, rfl, rfl⟩
  · exact counterOf_bumpCounter_self "rate_limited" st.monitor.drops
  · intro r hr
    exact counterOf_bumpCounter_other "rate_limited" r st.monitor.drops hr

/-- A toolkit whose rate limiter denies every event (the scrubber is the
identity, no queue is configured). -/
def tkDeny : PipelineToolkitM :=
  { scrub := id, allow := fun _ => false,
    queueDispatch := fun _ => Option.none,
    finalizeFanOut := fun _ => { ok := true } }

/-- An empty pipeline state. -/
def stEmpty : PipelineStateM :=
  { ring := { maxEvents := 10, buffer := [] },
    monitor := { byLevel := [], drops := [] },
    diagnostics := [] }

/-- Witness for claim C2 on a concrete denied call. -/
theorem claim_C2_witness :
    (processCall tkDeny stEmpty (evAt 0)).1 =
      { ok := false, reason := some "rate_limited",
        eventId := Option.none, queued := Option.none } ∧
    (processCall tkDeny stEmpty (evAt 0)).2.ring = stEmpty.ring ∧
    counterOf "rate_limited" (processCall tkDeny stEmpty (evAt 0)).2.monitor.drops
      = counterOf "rate_limited" stEmpty.monitor.drops + 1 ∧
    (processCall tkDeny stEmpty (evAt 0)).2.diagnostics = stEmpty.diagnostics ++
      [("rate_limited", [("event_id", "evt"), ("logger", "tests"), ("level", "INFO")])] := by
  obtain ⟨h1, h2, h3, _, _, h6⟩ := claim_C2 tkDeny stEmpty (evAt 0) rfl
  exact ⟨h1, h2, h3, h6⟩

/-! ## Queue adapter (claim C6) -/

/-- Counterexample to claim C6 as stated: after a clean
`stop(drain=True)` the adapter is stopped (the worker thread is gone), yet
the next `put` is accepted and enqueues the event — `put` never consults the
stopped state, so the queue does accept new work before `start` is called
again. -/
theorem claim_C6_counterexample :
    startedQueueAdapter.stopCleanDrain.threadRunning = false ∧
    startedQueueAdapter.stopCleanDrain.put (evAt 0)
      = PutOutcomeM.accepted
          { startedQueueAdapter.stopCleanDrain with items := [evAt 0] } := by
  constructor
  · rfl
  · rfl

/-- Claim C6, amended: `put` does not consult the stopped state.  After a
clean `stop(drain=True)` every `put` against an adapter with spare capacity
is accepted and the event is enqueued (with no worker left to process it);
rejection can only come from a full queue under the drop policy or an
expired block timeout. -/
theorem claim_C6 (q : QueueAdapterM) (e : LogEventM)
    (hcap : 0 < q.maxsize) :
    q.stopCleanDrain.threadRunning = false ∧
    q.stopCleanDrain.put e
      = PutOutcomeM.accepted { q.stopCleanDrain with items := [e] } := by
  refine ⟨rfl, ?_⟩
  have hne : ¬ q.maxsize ≤ 0 := by omega
  cases hpol : q.dropPolicy with
  | block =>
    cases hts : q.putTimeoutSet with
    | false =>
      simp [QueueAdapterM.put, QueueAdapterM.stopCleanDrain, hpol, hts, hne]
    | true =>
      simp [QueueAdapterM.put, QueueAdapterM.stopCleanDrain, hpol, hts, hne]
  | drop =>
    simp [QueueAdapterM.put, QueueAdapterM.stopCleanDrain, hpol, hne]

/-- Witness for claim C6 on the default adapter configuration. -/
theorem claim_C6_witness :
    startedQueueAdapter.stopCleanDrain.threadRunning = false ∧
    startedQueueAdapter.stopCleanDrain.put (evAt 1)
      = PutOutcomeM.accepted { startedQueueAdapter.stopCleanDrain with items := [evAt 1] } :=
  claim_C6 startedQueueAdapter (evAt 1) (by decide)

/-! ## Serialisation round trip (claim C7) -/

theorem fromName_severity (l : LogLevel) :
    LogLevel.fromName l.severity = some l := by
  cases l <;> rfl

theorem contextFromDict_toDict (c : LogContextM)
    (hs : blank c.service = false) (he : blank c.environment = false)
    (hj : blank c.jobId = false) :
    contextFromDict c.toDict = .ok c := by
  unfold contextFromDict mkLogContext LogContextM.toDict
  simp only [hs, he, hj, Bool.false_eq_true, if_false]
  have hchain : (if c.processIdChain = [] then Option.none
      else some c.processIdChain).getD [] = c.processIdChain := by
    split
    · simp_all
    · rfl
  have hextra : (if c.extra = [] then Option.none
      else some c.extra).getD [] = c.extra := by
    split
    · simp_all
    · rfl
  rw [hchain, hextra]

/-- Claim C7: for every valid log event (non-blank required context fields,
non-blank message, non-empty event id; the timestamp is a UTC instant by
construction), reconstruction from the canonical mapping is the identity:
`LogEvent.from_dict(e.to_dict()) == e` in every field. -/
theorem claim_C7 (e : LogEventM)
    (hs : blank e.context.service = false)
    (he : blank e.context.environment = false)
    (hj : blank e.context.jobId = false)
    (hm : blank e.message = false)
    (hid : ¬ e.eventId = "") :
    LogEventM.fromDict e.toDict = .ok e := by
  unfold LogEventM.fromDict LogEventM.toDict
  simp only [contextFromDict_toDict e.context hs he hj, fromName_severity]
  unfold mkLogEvent
  simp only [hm, Bool.false_eq_true, if_false, hid, if_neg hid]
  rfl

/-- A fully populated valid event. -/
def evFull : LogEventM :=
  { eventId := "evt-1", timestamp := 1700000000, loggerName := "svc.worker",
    level := LogLevel.error, message := "boom",
    context := { service := "svc", environment := "prod", jobId := "job",
                 requestId := some "req-1", userId := Option.none,
                 userName := some "svc-user", hostname := some "svc-host",
                 processId := some 4321, processIdChain := [1, 4321],
                 traceId := Option.none, spanId := Option.none,
                 extra := [("ctx", PyValue.str "v")] },
    extra := [("token", PyValue.str "abc"),
              ("nested", PyValue.map (PyFields.cons "k" PyValue.noneVal PyFields.nil))],
    excInfo := some "Traceback" }

/-- Witness for claim C7 on a fully populated event. -/
theorem claim_C7_witness : LogEventM.fromDict evFull.toDict = .ok evFull :=
  claim_C7 evFull rfl rfl rfl rfl (by decide)

/-! ## Context binder (claim C8) -/

/-- Claim C8: for every successful bind (the frame computation returns a
context), entering the scope pushes exactly one frame (depth +1), and
leaving — whether the body returns normally or raises — resets the stack to
the pre-bind stack: depth decreases by exactly 1 and the previous top frame
is restored. -/
theorem claim_C8 (stack : List LogContextM) (f : BindFieldsM)
    (ctx : LogContextM) (h : computeBindContext stack f = .ok ctx) :
    (stack ++ [ctx]).length = stack.length + 1 ∧
    (∀ (α : Type) (body : List LogContextM → BodyOutcome α),
      bindRun stack f body = .ok (body (stack ++ [ctx]), stack)) ∧
    (∀ msg : String,
      bindRun stack f (fun _ => (BodyOutcome.raised msg : BodyOutcome Unit))
        = .ok (BodyOutcome.raised msg, stack)) := by
  refine ⟨by simp, ?_, ?_⟩
  · intro α body
    unfold bindRun
    rw [h]
  · intro msg
    unfold bindRun
    rw [h]

/-- The fields of a nested `bind(request_id="r1")` call. -/
def bindFieldsEx : BindFieldsM := { requestId := some "r1" }

/-- Witness for claim C8: a nested bind over one frame, with a raising body. -/
theorem claim_C8_witness :
    ([ctxSample] ++ [{ ctxSample with requestId := some "r1" }]).length
      = [ctxSample].length + 1 ∧
    bindRun [ctxSample] bindFieldsEx
        (fun _ => (BodyOutcome.raised "boom" : BodyOutcome Unit))
      = .ok (BodyOutcome.raised "boom", [ctxSample]) := by
  obtain ⟨h1, _, h3⟩ := claim_C8 [ctxSample] bindFieldsEx
    { ctxSample with requestId := some "r1" } rfl
  exact ⟨h1, h3 "boom"⟩

/-! ## Dump adapter (claim C9) -/

/-- Counterexample to claim C9 as stated: dumping to a path whose parent
directory does not exist raises `FileNotFoundError` — the adapter does not
create absent parent directories before writing. -/
theorem claim_C9_counterexample :
    DumpAdapterM.dump (fun _ _ => "rendered") [] DumpFormatM.text
      (some ["missing", "dump.txt"]) Option.none { dirs := [[]], files := [] }
      = .error "FileNotFoundError" := by
  rfl

/-- Claim C9, amended: when the target path's parent directory exists, the
dump renders, writes the rendered string UTF-8 to the path and returns the
same string it wrote; absent parent directories are not created (the write
raises instead, see the counterexample). -/
theorem claim_C9 (render : DumpFormatM → List LogEventM → String)
    (events : List LogEventM) (fmt : DumpFormatM) (p : List String)
    (minLevel : Option LogLevel) (fs : FileSystemM)
    (hparent : parentDir p ∈ fs.dirs) :
    DumpAdapterM.dump render events fmt (some p) minLevel fs
      = .ok (render fmt (match minLevel with
          | some m => events.filter (fun e => m.value ≤ e.level.value)
          | Option.none => events),
        { fs with files := fs.files ++ [(p,
            render fmt (match minLevel with
              | some m => events.filter (fun e => m.value ≤ e.level.value)
              | Option.none => events))] }) := by
  simp [DumpAdapterM.dump, writeText, hparent]

/-- Witness for claim C9: writing a dump into an existing directory. -/
theorem claim_C9_witness :
    DumpAdapterM.dump (fun _ _ => "rendered") [evAt 0] DumpFormatM.json
      (some ["out", "dump.json"]) Option.none { dirs := [[], ["out"]], files := [] }
      = .ok ("rendered",
        { dirs := [[], ["out"]], files := [(["out", "dump.json"], "rendered")] }) := by
  have h := claim_C9 (fun _ _ => "rendered") [evAt 0] DumpFormatM.json
    ["out", "dump.json"] Option.none { dirs := [[], ["out"]], files := [] }
    (by decide)
  exact h

end LibLogRich
